import Mathlib

/-!
# Transfer-set preparation in `internal/transport/sender.go`

A shallow embedding of `NewDirSend`, `NewMultipleFileSend` and
`appendFilesFromPath`, together with the parts of Go's `path/filepath`,
`strings`, `io/fs` and `os` packages they call (Unix build: the only path
separator is `/` and there are no volume names).

Conventions of the embedding:

* a Go `string` is the list of its bytes, each byte written as a `Char`;
  `len` is `List.length` and `s[n:]` is `sliceFrom s n`;
* a Go `error` result is a value (`Option`/`Except`), a run-time panic (index or
  slice bound out of range) is the absence of a value (`Eff.val = none`,
  `Outcome.panic`);
* the file system is a parameter `FS`: what `os.Getwd`, `os.Lstat` and the
  traversal of `filepath.WalkDir` report; every call the code makes to it is
  recorded in an operation log (`FsOp`).
-/

namespace Transport

/-! ## Strings and file modes -/

/-- A Go string: its bytes in order. -/
abbrev GoString := List Char

/-- The slice expression `s[lo:]`; Go panics (here `none`) when `lo > len(s)`. -/
def sliceFrom (s : GoString) (lo : Nat) : Option GoString :=
  if lo ≤ s.length then some (s.drop lo) else none

/-- Go `strings.HasPrefix(s, pre)`. -/
def HasPrefix (s pre : GoString) : Bool :=
  decide (pre.length ≤ s.length) && (s.take pre.length == pre)

/-- Go `fs.FileMode`, a 32 bit unsigned value. -/
abbrev FileMode := Nat

/-- Bit `fs.ModeDir`. -/
def ModeDir : FileMode := 2 ^ 31
/-- Bit `fs.ModeSymlink`. -/
def ModeSymlink : FileMode := 2 ^ 27
/-- Bit `fs.ModeDevice`. -/
def ModeDevice : FileMode := 2 ^ 26
/-- Bit `fs.ModeNamedPipe`. -/
def ModeNamedPipe : FileMode := 2 ^ 25
/-- Bit `fs.ModeSocket`. -/
def ModeSocket : FileMode := 2 ^ 24
/-- Bit `fs.ModeCharDevice`. -/
def ModeCharDevice : FileMode := 2 ^ 21
/-- Bit `fs.ModeIrregular`. -/
def ModeIrregular : FileMode := 2 ^ 19

/-- Mask `fs.ModeType`: the type bits; none is set for a regular file. -/
def ModeType : FileMode :=
  ModeDir ||| ModeSymlink ||| ModeNamedPipe ||| ModeSocket ||| ModeDevice |||
    ModeCharDevice ||| ModeIrregular

/-- Go `FileMode.IsDir`: `m&ModeDir != 0`. -/
def FileMode.IsDir (m : FileMode) : Bool := (m &&& ModeDir) != 0

/-- Go `FileMode.IsRegular`: `m&ModeType == 0`. -/
def FileMode.IsRegular (m : FileMode) : Bool := (m &&& ModeType) == 0

/-! ## `path/filepath` (Unix) -/

/-- Go `os.IsPathSeparator` on Unix. -/
def IsPathSeparator (c : Char) : Bool := c == '/'

/-- The byte `path[i]`, for an index the caller knows to be in range. -/
def byteAt (path : GoString) (i : Nat) : Char := path.getD i '\x00'

/-- The loop of `filepath.Split` and `filepath.Dir`:
`i := len(path)-1; for i >= 0 && !os.IsPathSeparator(path[i]) { i-- }`.
The argument and the result are `i+1`. -/
def splitScan (path : GoString) : Nat → Nat
  | 0 => 0
  | i + 1 => if IsPathSeparator (byteAt path i) then i + 1 else splitScan path i

/-- Go `filepath.Split`: `path[:i+1], path[i+1:]` for the last separator `i`. -/
def Split (path : GoString) : GoString × GoString :=
  let k := splitScan path path.length
  (path.take k, path.drop k)

/-- The inner loop of the `..` case of `filepath.Clean`:
`for out.w > dotdot && !os.IsPathSeparator(out.index(out.w)) { out.w-- }`. -/
def cleanBacktrack (buf : GoString) (dotdot : Nat) : Nat → Nat
  | 0 => 0
  | w + 1 =>
    if w + 1 > dotdot && !IsPathSeparator (byteAt buf (w + 1)) then cleanBacktrack buf dotdot w
    else w + 1

/-- The copy loop of the default case of `filepath.Clean`:
`for ; r < n && !os.IsPathSeparator(path[r]); r++ { out.append(path[r]) }`,
on the unread rest of the path. Returns the new buffer and the new rest. -/
def cleanCopy : GoString → GoString → GoString × GoString
  | out, [] => (out, [])
  | out, c :: rest =>
    if IsPathSeparator c then (out, c :: rest) else cleanCopy (out ++ [c]) rest

/-- The main loop `for r < n { switch { ... } }` of `filepath.Clean`. `rest` is
`path[r:]`, `out` is the buffer `out.buf[:out.w]`. Every iteration reads at
least one byte, so `fuel = len(path)` iterations suffice (`cleanLoop_fuel_le`). -/
def cleanLoop (rooted : Bool) : Nat → GoString → GoString → Nat → GoString
  | 0, _, out, _ => out
  | _ + 1, [], out, _ => out
  | fuel + 1, c :: rest, out, dotdot =>
    if IsPathSeparator c then
      -- empty path element
      cleanLoop rooted fuel rest out dotdot
    else if c == '.' && (rest.isEmpty || IsPathSeparator (byteAt rest 0)) then
      -- . element
      cleanLoop rooted fuel rest out dotdot
    else if c == '.' && byteAt rest 0 == '.' &&
        (rest.length == 1 || IsPathSeparator (byteAt rest 1)) then
      -- .. element: remove to last separator
      if out.length > dotdot then
        cleanLoop rooted fuel (rest.drop 1)
          (out.take (cleanBacktrack out dotdot (out.length - 1))) dotdot
      else if !rooted then
        let out1 := if out.length > 0 then out ++ ['/'] else out
        let out2 := out1 ++ ['.', '.']
        cleanLoop rooted fuel (rest.drop 1) out2 out2.length
      else
        cleanLoop rooted fuel (rest.drop 1) out dotdot
    else
      -- real path element: add slash if needed, copy element
      let out1 :=
        if (rooted && out.length != 1) || (!rooted && out.length != 0) then out ++ ['/'] else out
      let (out2, rest2) := cleanCopy out1 (c :: rest)
      cleanLoop rooted fuel rest2 out2 dotdot

/-- Go `filepath.Clean` (Unix). -/
def Clean (path : GoString) : GoString :=
  if path.isEmpty then ['.']
  else
    let rooted := IsPathSeparator (byteAt path 0)
    let out :=
      if rooted then cleanLoop rooted path.length (path.drop 1) ['/'] 1
      else cleanLoop rooted path.length path [] 0
    if out.isEmpty then ['.'] else out

/-- Go `filepath.Dir` (Unix): `Clean(path[:i+1])` for the last separator `i`. -/
def Dir (path : GoString) : GoString :=
  Clean (path.take (splitScan path path.length))

/-- Go `strings.Join(elems, "/")`. -/
def joinSep : List GoString → GoString
  | [] => []
  | [e] => e
  | e :: es => e ++ '/' :: joinSep es

/-- Go `filepath.Join` (Unix): leading empty elements are ignored, the rest is
joined with `/` and cleaned; the result is empty when every element is. -/
def Join : List GoString → GoString
  | [] => []
  | e :: es => if e != [] then Clean (joinSep (e :: es)) else Join es

/-- Go `filepath.IsAbs` (Unix). -/
def IsAbs (path : GoString) : Bool := HasPrefix path ['/']

/-! ## Errors, file system, operation log -/

/-- An error reported by the operating system (`*fs.PathError`, `syscall.Errno`):
what `os.Getwd`, `os.Lstat`, `os.ReadDir` and `DirEntry.Info` return. The
sentinels `fs.SkipDir` and `fs.SkipAll`, which are not reported by any of these
calls, are not values of this type. -/
structure FsError where
  msg : String
  deriving DecidableEq, Repr

/-- A Go `error` value returned by the functions of `sender.go`. -/
inductive Error where
  /-- An error of the file system, passed on as it is. -/
  | fs (e : FsError)
  /-- Modelled from the spec: `zip.ErrorDangerousFilename`, the named path-escape
  error of the repository's `zip` package (its declaration is not among the
  sources at hand). -/
  | ErrorDangerousFilename
  deriving DecidableEq, Repr

/-- Go `fs.FileInfo`, reduced to the method the code calls on it. -/
structure FileInfo where
  Mode : FileMode
  deriving DecidableEq, Repr

/-- Go `FileInfo.IsDir`, which is `Mode().IsDir()`. -/
def FileInfo.IsDir (info : FileInfo) : Bool := info.Mode.IsDir

/-- One invocation of the callback by `filepath.WalkDir`: the arguments
`path`, `entry`, `err`, where the entry is given by what its methods `IsDir()`
and `Info()` return. -/
structure WalkItem where
  path : GoString
  err : Option FsError
  isDir : Bool
  info : Except FsError FileInfo

/-- The file system as the code observes it. `Walk root` is the sequence of
callback invocations `filepath.WalkDir(root, fn)` makes as long as `fn` returns
`nil`: the root first, then what lies below it in the order of the traversal;
after an invocation that returns an error no further item is delivered. -/
structure FS where
  Getwd : Except FsError GoString
  Lstat : GoString → Except FsError FileInfo
  Walk : GoString → List WalkItem

/-- A call to the file system. -/
inductive FsOp where
  | getwd
  | lstat (path : GoString)
  | walkDir (root : GoString)
  | entryInfo (path : GoString)
  | fileOpen (path : GoString)
  deriving DecidableEq, Repr

/-- Whether the operation opens a file. -/
def FsOp.isOpen : FsOp → Bool
  | .fileOpen _ => true
  | _ => false

/-- A run of a piece of Go code: the file-system calls it made, in order, and
the value it produced; `none` when it panicked. -/
structure Eff (α : Type) where
  ops : List FsOp
  val : Option α

/-- A run that makes no call and produces `a`. -/
def Eff.pure {α : Type} (a : α) : Eff α := ⟨[], some a⟩

/-- A run-time panic. -/
def Eff.panic {α : Type} : Eff α := ⟨[], none⟩

/-- A single file-system call with its result. -/
def Eff.call {α : Type} (op : FsOp) (a : α) : Eff α := ⟨[op], some a⟩

/-- Sequencing: the second run starts from the value of the first; a panic
ends the run. -/
def Eff.bind {α β : Type} (e : Eff α) (k : α → Eff β) : Eff β :=
  match e.val with
  | none => ⟨e.ops, none⟩
  | some a => ⟨e.ops ++ (k a).ops, (k a).val⟩

/-! ## The data handed to the transfer client -/

/-- The `Reader` closure of a directory entry: `func() { return os.Open(p) }`,
given by the path `p` it opens when it is invoked. -/
structure Reader where
  openPath : GoString
  deriving DecidableEq, Repr

/-- What invoking the closure does: one `os.Open` of the captured path. -/
def Reader.invoke (r : Reader) : List FsOp := [FsOp.fileOpen r.openPath]

/-- Go `wormhole.DirectoryEntry`. -/
structure DirectoryEntry where
  Path : GoString
  Mode : FileMode
  Reader : Reader
  deriving DecidableEq, Repr

/-- Go `fyne.URI`, reduced to the two methods the code calls. -/
structure URI where
  Name : GoString
  Path : GoString
  deriving DecidableEq, Repr

/-- How `NewDirSend` and `NewMultipleFileSend` end. -/
inductive Outcome where
  /-- The statement `return code, result, err`, without a call to `SendDirectory`;
  `result` is `none` for the nil channel. -/
  | returned (code : GoString) (result : Option Unit) (err : Option Error)
  /-- The statement
  `return c.SendDirectory(ctx, name, files, progress, wormhole.WithCode(code))`. -/
  | sendDirectory (name : GoString) (files : List DirectoryEntry)
  /-- A run-time panic. -/
  | panic
  deriving DecidableEq, Repr

/-- A run of `NewDirSend` or `NewMultipleFileSend`. -/
structure Run where
  ops : List FsOp
  out : Outcome

/-! ## `sender.go` -/

/-- Go `filepath.Abs` (Unix): `Clean(path)` for an absolute path, else
`Join(wd, path)` with the working directory, whose lookup may fail. -/
def Abs (fs : FS) (path : GoString) : Eff (Except FsError GoString) :=
  if IsAbs path then Eff.pure (.ok (Clean path))
  else
    match fs.Getwd with
    | .error e => Eff.call .getwd (.error e)
    | .ok wd => Eff.call .getwd (.ok (Join [wd, path]))

/-- The callback of `appendFilesFromPath`, one invocation: the new value of the
captured `files` and the returned error. -/
def walkFn (prefixLength : Nat) (files : List DirectoryEntry) (w : WalkItem) :
    Eff (List DirectoryEntry × Option FsError) :=
  match w.err with
  | some e => Eff.pure (files, some e)
  | none =>
    if w.isDir then Eff.pure (files, none)
    else
      match w.info with
      | .error e => Eff.call (.entryInfo w.path) (files, some e)
      | .ok info =>
        (Eff.call (.entryInfo w.path) ()).bind fun _ =>
          if !info.Mode.IsRegular then Eff.pure (files, none)
          else
            match sliceFrom w.path prefixLength with
            | none => Eff.panic
            | some rel => Eff.pure (files ++ [⟨rel, info.Mode, ⟨w.path⟩⟩], none)

/-- Go `filepath.WalkDir` driving the callback over the traversal: it stops at
the first invocation that returns an error and returns that error. -/
def walkLoop (prefixLength : Nat) :
    List WalkItem → List DirectoryEntry → Eff (List DirectoryEntry × Option FsError)
  | [], files => Eff.pure (files, none)
  | w :: ws, files =>
    (walkFn prefixLength files w).bind fun r =>
      match r with
      | (files1, some e) => Eff.pure (files1, some e)
      | (files1, none) => walkLoop prefixLength ws files1

/-- Go `appendFilesFromPath`: returns `files, err`. -/
def appendFilesFromPath (fs : FS) (files : List DirectoryEntry) (path : GoString)
    (prefixLength : Nat) : Eff (List DirectoryEntry × Option FsError) :=
  (Eff.call (.walkDir path) ()).bind fun _ => walkLoop prefixLength (fs.Walk path) files

/-- Go `Client.NewDirSend`. -/
def NewDirSend (fs : FS) (dir : URI) : Run :=
  let path := dir.Path
  let prefixStr := (Split path).1
  let prefixLen := prefixStr.length
  let r := appendFilesFromPath fs [] path prefixLen
  match r.val with
  | none => ⟨r.ops, .panic⟩
  | some (_, some err) => ⟨r.ops, .returned [] none (some (.fs err))⟩
  | some (files, none) => ⟨r.ops, .sendDirectory dir.Name files⟩

/-- The body of the loop `for _, uri := range uris` of `NewMultipleFileSend`:
`.error err` for `return "", nil, err`, `.ok files` for the new value of `files`
at the end of the iteration. -/
def sendItem (fs : FS) (baseDir : GoString) (prefixLen : Nat) (files : List DirectoryEntry)
    (uri : URI) : Eff (Except Error (List DirectoryEntry)) :=
  (Abs fs (Join [baseDir, uri.Name])).bind fun a =>
    match a with
    | .error err => Eff.pure (.error (.fs err))
    | .ok absPath =>
      if !HasPrefix absPath baseDir then Eff.pure (.error .ErrorDangerousFilename)
      else
        let path := uri.Path
        (Eff.call (.lstat path) (fs.Lstat path)).bind fun st =>
          match st with
          | .error err => Eff.pure (.error (.fs err))
          | .ok info =>
            if !info.IsDir then
              match sliceFrom path prefixLen with
              | none => Eff.panic
              | some rel => Eff.pure (.ok (files ++ [⟨rel, info.Mode, ⟨Clean path⟩⟩]))
            else
              (appendFilesFromPath fs files path prefixLen).bind fun r =>
                match r with
                | (_, some err) => Eff.pure (.error (.fs err))
                | (files1, none) => Eff.pure (.ok files1)

/-- The loop `for _, uri := range uris` of `NewMultipleFileSend`. -/
def sendLoop (fs : FS) (baseDir : GoString) (prefixLen : Nat) :
    List URI → List DirectoryEntry → Eff (Except Error (List DirectoryEntry))
  | [], files => Eff.pure (.ok files)
  | uri :: rest, files =>
    (sendItem fs baseDir prefixLen files uri).bind fun r =>
      match r with
      | .error err => Eff.pure (.error err)
      | .ok files1 => sendLoop fs baseDir prefixLen rest files1

/-- Go `Client.NewMultipleFileSend`. `uris[0]` panics on an empty selection. -/
def NewMultipleFileSend (fs : FS) (uris : List URI) : Run :=
  match uris with
  | [] => ⟨[], .panic⟩
  | uri0 :: _ =>
    let baseDir := Dir uri0.Path
    let (subDir, dirName) := Split baseDir
    let prefixLen := subDir.length
    let r := sendLoop fs baseDir prefixLen uris []
    match r.val with
    | none => ⟨r.ops, .panic⟩
    | some (.error err) => ⟨r.ops, .returned [] none (some err)⟩
    | some (.ok files) => ⟨r.ops, .sendDirectory dirName files⟩

/-! ## Reference definitions: what an enumeration is expected to produce -/

/-- The error the walk meets at a visited item: the error handed to the
callback, or the error of `entry.Info()` for an entry that is no directory. -/
def WalkItem.failure (w : WalkItem) : Option FsError :=
  match w.err with
  | some e => some e
  | none =>
    if w.isDir then none
    else
      match w.info with
      | .error e => some e
      | .ok _ => none

/-- The visited item is a regular file: visited without error, not listed as a
directory, and no type bit set in the mode its metadata reports. -/
def WalkItem.isRegularFile (w : WalkItem) : Bool :=
  match w.err, w.isDir, w.info with
  | none, false, .ok info => info.Mode.IsRegular
  | _, _, _ => false

/-- The entry of a visited regular file: the path from byte `prefixLength` on,
the reported mode, a reader of the visited path. No entry for any other item. -/
def WalkItem.entry (prefixLength : Nat) (w : WalkItem) : Option DirectoryEntry :=
  match w.err, w.isDir, w.info with
  | none, false, .ok info =>
    if info.Mode.IsRegular then some ⟨w.path.drop prefixLength, info.Mode, ⟨w.path⟩⟩ else none
  | _, _, _ => none

/-- The entries of a walk: one per visited regular file, in the order of the walk. -/
def walkEntries (prefixLength : Nat) (items : List WalkItem) : List DirectoryEntry :=
  items.filterMap (WalkItem.entry prefixLength)

/-- The entries of a selected item when nothing fails: the entries of the walk
for a directory, else one entry with the item's path from byte `prefixLen` on,
the mode `Lstat` reports and a reader of the cleaned path. -/
def itemEntries (fs : FS) (prefixLen : Nat) (u : URI) : List DirectoryEntry :=
  match fs.Lstat u.Path with
  | .error _ => []
  | .ok info =>
    if info.IsDir then walkEntries prefixLen (fs.Walk u.Path)
    else [⟨u.Path.drop prefixLen, info.Mode, ⟨Clean u.Path⟩⟩]

/-- The escape check of `NewMultipleFileSend` passes for the item: the resolved
path `Abs(Join(baseDir, name))` is computed and has `baseDir` as a string prefix. -/
def PassesCheck (fs : FS) (baseDir : GoString) (u : URI) : Prop :=
  ∃ a, (Abs fs (Join [baseDir, u.Name])).val = some (.ok a) ∧ HasPrefix a baseDir = true

/-- The path `R'` is a copy of `R` in which separators may be written in the
other convention: byte for byte the two agree, except that where `R` has a
separator (on this build the byte `/`) `R'` may have `\` or `/`. -/
def SepVariant (R R' : GoString) : Prop :=
  List.Forall₂ (fun a b => a = b ∨ (IsPathSeparator a = true ∧ (b = '\\' ∨ b = '/'))) R R'

/-- The components of a path: the non-empty runs of bytes between separators. -/
def pathComponents (p : GoString) : List GoString :=
  (p.splitOn '/').filter fun c => c != []

/-- The path `p` lies within `root` by path components: the components of
`root` are an initial segment of the components of `p`. -/
def IsWithin (root p : GoString) : Bool :=
  (pathComponents root).isPrefixOf (pathComponents p)

/-- The full paths of the regular files a walk visits, in order. -/
def walkFilePaths (items : List WalkItem) : List GoString :=
  (items.filter WalkItem.isRegularFile).map WalkItem.path

/-- The full paths of the files a selected item contributes: its own path, or
for a directory the regular files of its walk. -/
def itemFilePaths (fs : FS) (u : URI) : List GoString :=
  match fs.Lstat u.Path with
  | .error _ => []
  | .ok info => if info.IsDir then walkFilePaths (fs.Walk u.Path) else [u.Path]

/-! ## Example file system -/

/-- The error of a path that does not exist. -/
def notExist : FsError := ⟨"no such file or directory"⟩

/-- The mode of a directory with permissions `rwxr-xr-x`. -/
def demoDirMode : FileMode := ModeDir ||| 0o755

/-- A walk of `/a/dir/sub`: the directory itself, two regular files and, between
them, a symbolic link. -/
def demoWalk : List WalkItem :=
  [⟨"/a/dir/sub".toList, none, true, .ok ⟨demoDirMode⟩⟩,
   ⟨"/a/dir/sub/x".toList, none, false, .ok ⟨0o600⟩⟩,
   ⟨"/a/dir/sub/l".toList, none, false, .ok ⟨ModeSymlink ||| 0o777⟩⟩,
   ⟨"/a/dir/sub/y".toList, none, false, .ok ⟨0o640⟩⟩]

/-- A file system with the regular file `/a/dir/f` and the directory
`/a/dir/sub`; every other path does not exist. -/
def demoFS : FS where
  Getwd := .ok "/home/u".toList
  Lstat := fun p =>
    if p = "/a/dir/f".toList then .ok ⟨0o644⟩
    else if p = "/a/dir/sub".toList then .ok ⟨demoDirMode⟩
    else .error notExist
  Walk := fun p =>
    if p = "/a/dir/sub".toList then demoWalk
    else [⟨p, some notExist, false, .error notExist⟩]

/-- The selected file `/a/dir/f`. -/
def demoFile : URI := ⟨"f".toList, "/a/dir/f".toList⟩

/-- The selected directory `/a/dir/sub`. -/
def demoSub : URI := ⟨"sub".toList, "/a/dir/sub".toList⟩

/-- A crafted item whose name climbs out of the directory of its path. -/
def climbingItem : URI := ⟨"../x".toList, "/a/dir/f".toList⟩

/-- A crafted item: its path is the file `/a/dir/f`, its name climbs out of the
directory and into the sibling `/a/dir2`. -/
def siblingItem : URI := ⟨"../dir2/x".toList, "/a/dir/f".toList⟩

/-- The example file system in which also the path `/a/dir/sub/../f` names a
regular file (the file `/a/dir/f` unless `sub` is a link to another directory). -/
def dotdotFS : FS where
  Getwd := demoFS.Getwd
  Lstat := fun p => if p = "/a/dir/sub/../f".toList then .ok ⟨0o644⟩ else demoFS.Lstat p
  Walk := demoFS.Walk

/-- A selected item whose path is not clean. -/
def dotdotItem : URI := ⟨"f".toList, "/a/dir/sub/../f".toList⟩

/-- The example file system with the regular file `/b` next to `/a`. -/
def shortFS : FS where
  Getwd := demoFS.Getwd
  Lstat := fun p => if p = "/b".toList then .ok ⟨0o644⟩ else demoFS.Lstat p
  Walk := demoFS.Walk

/-- A selected item from another parent, with a path of two bytes. -/
def shortItem : URI := ⟨"b".toList, "/b".toList⟩

/-- The example file system in which `Lstat` reports the symbolic link
`/a/dir/sub/l`, the link the walk of `/a/dir/sub` visits. -/
def linkFS : FS where
  Getwd := demoFS.Getwd
  Lstat := fun p =>
    if p = "/a/dir/sub/l".toList then .ok ⟨ModeSymlink ||| 0o777⟩ else demoFS.Lstat p
  Walk := demoFS.Walk

/-- The symbolic link `/a/dir/sub/l`, selected as a top-level item. -/
def linkItem : URI := ⟨"l".toList, "/a/dir/sub/l".toList⟩

end Transport

namespace Transport

/-! ## Runs -/

@[simp] theorem Eff.pure_val {α : Type} (a : α) : (Eff.pure a).val = some a := rfl
@[simp] theorem Eff.pure_ops {α : Type} (a : α) : (Eff.pure a).ops = [] := rfl
@[simp] theorem Eff.panic_val {α : Type} : (Eff.panic : Eff α).val = none := rfl
@[simp] theorem Eff.panic_ops {α : Type} : (Eff.panic : Eff α).ops = [] := rfl
@[simp] theorem Eff.call_val {α : Type} (op : FsOp) (a : α) : (Eff.call op a).val = some a := rfl
@[simp] theorem Eff.call_ops {α : Type} (op : FsOp) (a : α) : (Eff.call op a).ops = [op] := rfl

@[simp] theorem Eff.bind_val {α β : Type} (e : Eff α) (k : α → Eff β) :
    (e.bind k).val = e.val.bind fun a => (k a).val := by
  unfold Eff.bind
  cases e.val <;> rfl

theorem Eff.mem_bind_ops {α β : Type} (e : Eff α) (k : α → Eff β) (op : FsOp)
    (h : op ∈ (e.bind k).ops) : op ∈ e.ops ∨ ∃ a, e.val = some a ∧ op ∈ (k a).ops := by
  unfold Eff.bind at h
  cases hv : e.val with
  | none => rw [hv] at h; exact Or.inl h
  | some a =>
    rw [hv] at h
    rcases List.mem_append.mp h with h1 | h1
    · exact Or.inl h1
    · exact Or.inr ⟨a, rfl, h1⟩

theorem Eff.ext {α : Type} {e f : Eff α} (h1 : e.ops = f.ops) (h2 : e.val = f.val) : e = f := by
  cases e; cases f; simp_all

@[simp] theorem Eff.pure_bind {α β : Type} (a : α) (k : α → Eff β) : (Eff.pure a).bind k = k a := by
  apply Eff.ext <;> simp [Eff.bind, Eff.pure]

theorem Eff.bind_assoc {α β γ : Type} (e : Eff α) (k : α → Eff β) (l : β → Eff γ) :
    (e.bind k).bind l = e.bind fun a => (k a).bind l := by
  cases e with
  | mk ops val =>
    cases val with
    | none => rfl
    | some a =>
      cases hk : (k a).val with
      | none => apply Eff.ext <;> simp [Eff.bind, hk]
      | some b => apply Eff.ext <;> simp [Eff.bind, hk]

/-! ## The walk -/

theorem walkFn_val_failure (n : Nat) (files : List DirectoryEntry) (w : WalkItem) (e : FsError)
    (h : w.failure = some e) : (walkFn n files w).val = some (files, some e) := by
  obtain ⟨path, err, isDir, info⟩ := w
  cases err <;> cases isDir <;> cases info <;>
    simp_all [WalkItem.failure, walkFn]

theorem walkFn_val_ok (n : Nat) (files : List DirectoryEntry) (w : WalkItem)
    (h : w.failure = none) (hn : n ≤ w.path.length) :
    (walkFn n files w).val = some (files ++ (w.entry n).toList, none) := by
  obtain ⟨path, err, isDir, info⟩ := w
  cases err <;> cases isDir <;> cases info <;>
    simp_all [WalkItem.failure, walkFn, WalkItem.entry]
  rename_i info
  by_cases hr : info.Mode.IsRegular = true <;> simp [hr, sliceFrom, hn]

theorem walkFn_val_panic (n : Nat) (files : List DirectoryEntry) (w : WalkItem)
    (h : w.isRegularFile = true) (hn : w.path.length < n) : (walkFn n files w).val = none := by
  obtain ⟨path, err, isDir, info⟩ := w
  cases err <;> cases isDir <;> cases info <;>
    simp_all [WalkItem.isRegularFile, walkFn, sliceFrom, Nat.not_le.mpr hn]

theorem walkFn_ops_not_open (n : Nat) (files : List DirectoryEntry) (w : WalkItem) (op : FsOp)
    (h : op ∈ (walkFn n files w).ops) : op.isOpen = false := by
  obtain ⟨path, err, isDir, info⟩ := w
  cases err <;> cases isDir <;> cases info <;>
    simp_all [walkFn, Eff.bind, FsOp.isOpen]
  rename_i info
  revert h
  by_cases hr : info.Mode.IsRegular = true <;> simp [hr]
  · cases sliceFrom path n <;> simp <;> rintro rfl <;> rfl
  · rintro rfl; rfl

theorem walkFn_cases (n : Nat) (files : List DirectoryEntry) (w : WalkItem) :
    (∃ e, w.failure = some e ∧ (walkFn n files w).val = some (files, some e)) ∨
    (w.failure = none ∧ n ≤ w.path.length ∧
      (walkFn n files w).val = some (files ++ (w.entry n).toList, none)) ∨
    (w.failure = none ∧ w.isRegularFile = true ∧ w.path.length < n ∧
      (walkFn n files w).val = none) ∨
    (w.failure = none ∧ w.isRegularFile = false ∧ w.entry n = none ∧
      (walkFn n files w).val = some (files, none)) := by
  cases hf : w.failure with
  | some e => exact Or.inl ⟨e, rfl, walkFn_val_failure n files w e hf⟩
  | none =>
    by_cases hn : n ≤ w.path.length
    · exact Or.inr (Or.inl ⟨rfl, hn, walkFn_val_ok n files w hf hn⟩)
    · by_cases hr : w.isRegularFile = true
      · exact Or.inr (Or.inr (Or.inl ⟨rfl, hr, Nat.lt_of_not_le hn,
          walkFn_val_panic n files w hr (Nat.lt_of_not_le hn)⟩))
      · refine Or.inr (Or.inr (Or.inr ⟨rfl, by simpa using hr, ?_, ?_⟩))
        · obtain ⟨path, err, isDir, info⟩ := w
          cases err <;> cases isDir <;> cases info <;>
            simp_all [WalkItem.isRegularFile, WalkItem.entry]
        · obtain ⟨path, err, isDir, info⟩ := w
          cases err <;> cases isDir <;> cases info <;>
            simp_all [WalkItem.isRegularFile, WalkItem.failure, walkFn]

/-- A walk that ends without error has met no failure and has appended exactly
the entries of its regular files. -/
theorem walkLoop_val_inv (n : Nat) (items : List WalkItem) :
    ∀ files files1 : List DirectoryEntry, (walkLoop n items files).val = some (files1, none) →
      files1 = files ++ walkEntries n items ∧ (∀ w ∈ items, w.failure = none) ∧
        ∀ w ∈ items, w.isRegularFile = true → n ≤ w.path.length := by
  induction items with
  | nil => intro files files1 h; simp_all [walkLoop, walkEntries]
  | cons w ws ih =>
    intro files files1 h
    simp only [walkLoop, Eff.bind_val] at h
    rcases walkFn_cases n files w with ⟨e, _, hv⟩ | ⟨hf, hn, hv⟩ | ⟨_, _, _, hv⟩ | ⟨hf, hr, he, hv⟩
    · simp [hv] at h
    · rw [hv] at h
      simp only [Option.some_bind] at h
      obtain ⟨h1, h2, h3⟩ := ih _ _ h
      refine ⟨?_, ?_, ?_⟩
      · rw [h1]
        cases he : w.entry n <;> simp [walkEntries, List.filterMap_cons, he]
      · intro v hv'
        rcases List.mem_cons.mp hv' with rfl | hv'
        · exact hf
        · exact h2 v hv'
      · intro v hv' hr
        rcases List.mem_cons.mp hv' with rfl | hv'
        · exact hn
        · exact h3 v hv' hr
    · simp [hv] at h
    · rw [hv] at h
      simp only [Option.some_bind] at h
      obtain ⟨h1, h2, h3⟩ := ih _ _ h
      refine ⟨?_, ?_, ?_⟩
      · rw [h1]
        simp [walkEntries, List.filterMap_cons, he]
      · intro v hv'
        rcases List.mem_cons.mp hv' with rfl | hv'
        · exact hf
        · exact h2 v hv'
      · intro v hv' hr'
        rcases List.mem_cons.mp hv' with rfl | hv'
        · rw [hr] at hr'; cases hr'
        · exact h3 v hv' hr'

/-- An error returned by a walk is the failure of one of the visited items. -/
theorem walkLoop_val_inv_err (n : Nat) (items : List WalkItem) :
    ∀ (files files1 : List DirectoryEntry) (e : FsError),
      (walkLoop n items files).val = some (files1, some e) → ∃ w ∈ items, w.failure = some e := by
  induction items with
  | nil => intro files files1 e h; simp [walkLoop] at h
  | cons w ws ih =>
    intro files files1 e h
    simp only [walkLoop, Eff.bind_val] at h
    rcases walkFn_cases n files w with ⟨e1, hf, hv⟩ | ⟨_, _, hv⟩ | ⟨_, _, _, hv⟩ | ⟨_, _, _, hv⟩
    · rw [hv] at h
      simp at h
      exact ⟨w, List.mem_cons_self _ _, by rw [hf, h.2]⟩
    · rw [hv] at h
      simp only [Option.some_bind] at h
      obtain ⟨v, hv1, hv2⟩ := ih _ _ _ h
      exact ⟨v, List.mem_cons_of_mem _ hv1, hv2⟩
    · simp [hv] at h
    · rw [hv] at h
      simp only [Option.some_bind] at h
      obtain ⟨v, hv1, hv2⟩ := ih _ _ _ h
      exact ⟨v, List.mem_cons_of_mem _ hv1, hv2⟩

/-- A walk whose paths all reach the prefix length does not panic. -/
theorem walkLoop_val_ne_none (n : Nat) (items : List WalkItem) :
    ∀ files : List DirectoryEntry, (∀ w ∈ items, n ≤ w.path.length) →
      (walkLoop n items files).val ≠ none := by
  induction items with
  | nil => intro files _; simp [walkLoop]
  | cons w ws ih =>
    intro files hn
    have hw := hn w (List.mem_cons_self _ _)
    simp only [walkLoop, Eff.bind_val]
    rcases walkFn_cases n files w with ⟨e1, hf, hv⟩ | ⟨_, _, hv⟩ | ⟨_, _, hlt, hv⟩ | ⟨_, _, _, hv⟩
    · simp [hv]
    · rw [hv]
      exact ih _ fun v hv' => hn v (List.mem_cons_of_mem _ hv')
    · omega
    · rw [hv]
      exact ih _ fun v hv' => hn v (List.mem_cons_of_mem _ hv')

theorem walkLoop_ops_not_open (n : Nat) (items : List WalkItem) :
    ∀ (files : List DirectoryEntry) (op : FsOp), op ∈ (walkLoop n items files).ops →
      op.isOpen = false := by
  induction items with
  | nil => intro files op h; simp [walkLoop] at h
  | cons w ws ih =>
    intro files op h
    simp only [walkLoop] at h
    rcases Eff.mem_bind_ops _ _ _ h with h1 | ⟨⟨f1, e1⟩, _, h1⟩
    · exact walkFn_ops_not_open n files w op h1
    · cases e1 with
      | some e => simp at h1
      | none => exact ih f1 op h1

theorem appendFilesFromPath_val (fs : FS) (files : List DirectoryEntry) (path : GoString)
    (n : Nat) : (appendFilesFromPath fs files path n).val = (walkLoop n (fs.Walk path) files).val := by
  simp [appendFilesFromPath]

theorem appendFilesFromPath_ops_not_open (fs : FS) (files : List DirectoryEntry)
    (path : GoString) (n : Nat) (op : FsOp) (h : op ∈ (appendFilesFromPath fs files path n).ops) :
    op.isOpen = false := by
  unfold appendFilesFromPath at h
  rcases Eff.mem_bind_ops _ _ _ h with h1 | ⟨_, _, h1⟩
  · simp at h1
    rw [h1]; rfl
  · exact walkLoop_ops_not_open n _ files op h1

/-! ## The items of a selection -/

theorem Abs_val (fs : FS) (path : GoString) : ∃ r, (Abs fs path).val = some r := by
  unfold Abs
  split
  · exact ⟨_, rfl⟩
  · split <;> exact ⟨_, rfl⟩

theorem Abs_ops_not_open (fs : FS) (path : GoString) (op : FsOp) (h : op ∈ (Abs fs path).ops) :
    op.isOpen = false := by
  unfold Abs at h
  split at h
  · simp at h
  · split at h <;> simp at h <;> rw [h] <;> rfl

theorem sendItem_val_abs_error (fs : FS) (baseDir : GoString) (n : Nat)
    (files : List DirectoryEntry) (u : URI) (e : FsError)
    (h : (Abs fs (Join [baseDir, u.Name])).val = some (.error e)) :
    (sendItem fs baseDir n files u).val = some (.error (.fs e)) := by
  simp [sendItem, h]

theorem sendItem_val_escape (fs : FS) (baseDir : GoString) (n : Nat)
    (files : List DirectoryEntry) (u : URI) (a : GoString)
    (h : (Abs fs (Join [baseDir, u.Name])).val = some (.ok a)) (hp : HasPrefix a baseDir = false) :
    (sendItem fs baseDir n files u).val = some (.error .ErrorDangerousFilename) := by
  simp [sendItem, h, hp]

theorem sendItem_val_checked (fs : FS) (baseDir : GoString) (n : Nat)
    (files : List DirectoryEntry) (u : URI) (hc : PassesCheck fs baseDir u) :
    (sendItem fs baseDir n files u).val =
      match fs.Lstat u.Path with
      | .error e => some (.error (.fs e))
      | .ok info =>
        if info.IsDir then
          (walkLoop n (fs.Walk u.Path) files).val.bind fun r =>
            match r with
            | (_, some err) => some (.error (.fs err))
            | (files1, none) => some (.ok files1)
        else (sliceFrom u.Path n).map fun rel => .ok (files ++ [⟨rel, info.Mode, ⟨Clean u.Path⟩⟩]) := by
  obtain ⟨a, h, hp⟩ := hc
  simp only [sendItem, Eff.bind_val, h, Option.some_bind, hp, Bool.not_true, Bool.false_eq_true,
    if_false, Eff.call_val]
  cases hl : fs.Lstat u.Path with
  | error e => simp
  | ok info =>
    cases hd : info.IsDir with
    | true =>
      simp only [hd, Bool.not_true, Bool.false_eq_true, if_false, Eff.bind_val,
        appendFilesFromPath_val, if_true]
      cases (walkLoop n (fs.Walk u.Path) files).val with
      | none => rfl
      | some r =>
        obtain ⟨f1, e1⟩ := r
        cases e1 <;> rfl
    | false =>
      simp only [hd, Bool.not_false, if_true, Bool.false_eq_true, if_false]
      cases sliceFrom u.Path n <;> rfl

/-- An item whose iteration ends without error has passed the check, and has
appended exactly its entries. -/
theorem sendItem_val_inv (fs : FS) (baseDir : GoString) (n : Nat)
    (files files1 : List DirectoryEntry) (u : URI)
    (h : (sendItem fs baseDir n files u).val = some (.ok files1)) :
    PassesCheck fs baseDir u ∧ files1 = files ++ itemEntries fs n u ∧
      ∃ info, fs.Lstat u.Path = .ok info := by
  have hc : PassesCheck fs baseDir u := by
    obtain ⟨r, hr⟩ := Abs_val fs (Join [baseDir, u.Name])
    cases r with
    | error e => rw [sendItem_val_abs_error fs baseDir n files u e hr] at h; simp at h
    | ok a =>
      cases hp : HasPrefix a baseDir with
      | false => rw [sendItem_val_escape fs baseDir n files u a hr hp] at h; simp at h
      | true => exact ⟨a, hr, hp⟩
  refine ⟨hc, ?_⟩
  rw [sendItem_val_checked fs baseDir n files u hc] at h
  unfold itemEntries
  cases hl : fs.Lstat u.Path with
  | error e => simp [hl] at h
  | ok info =>
    simp only [hl] at h
    refine ⟨?_, info, rfl⟩
    cases hd : info.IsDir with
    | true =>
      simp only [hd, if_true] at h ⊢
      cases hw : (walkLoop n (fs.Walk u.Path) files).val with
      | none => simp [hw] at h
      | some r =>
        obtain ⟨f1, e1⟩ := r
        cases e1 with
        | some e => simp [hw] at h
        | none =>
          simp [hw] at h
          rw [← h]
          exact (walkLoop_val_inv n _ files f1 hw).1
    | false =>
      simp only [hd, Bool.false_eq_true, if_false] at h ⊢
      unfold sliceFrom at h
      split at h <;> simp at h
      exact h.symm

theorem sendItem_ops_not_open (fs : FS) (baseDir : GoString) (n : Nat)
    (files : List DirectoryEntry) (u : URI) (op : FsOp)
    (h : op ∈ (sendItem fs baseDir n files u).ops) : op.isOpen = false := by
  unfold sendItem at h
  rcases Eff.mem_bind_ops _ _ _ h with h1 | ⟨a, _, h1⟩
  · exact Abs_ops_not_open fs _ op h1
  · cases a with
    | error e => simp at h1
    | ok absPath =>
      simp only at h1
      split at h1
      · simp at h1
      · rcases Eff.mem_bind_ops _ _ _ h1 with h2 | ⟨st, _, h2⟩
        · simp at h2
          rw [h2]; rfl
        · cases st with
          | error e => simp at h2
          | ok info =>
            simp only at h2
            split at h2
            · split at h2 <;> simp at h2
            · rcases Eff.mem_bind_ops _ _ _ h2 with h3 | ⟨⟨f1, e1⟩, _, h3⟩
              · exact appendFilesFromPath_ops_not_open fs files u.Path n op h3
              · cases e1 <;> simp at h3

theorem sendItem_val_ne_none (fs : FS) (baseDir : GoString) (n : Nat)
    (files : List DirectoryEntry) (u : URI) (hu : n ≤ u.Path.length)
    (hw : ∀ w ∈ fs.Walk u.Path, n ≤ w.path.length) :
    (sendItem fs baseDir n files u).val ≠ none := by
  obtain ⟨r, hr⟩ := Abs_val fs (Join [baseDir, u.Name])
  cases r with
  | error e => rw [sendItem_val_abs_error fs baseDir n files u e hr]; simp
  | ok a =>
    cases hp : HasPrefix a baseDir with
    | false => rw [sendItem_val_escape fs baseDir n files u a hr hp]; simp
    | true =>
      rw [sendItem_val_checked fs baseDir n files u ⟨a, hr, hp⟩]
      cases hl : fs.Lstat u.Path with
      | error e => simp
      | ok info =>
        cases hd : info.IsDir with
        | true =>
          simp only [hd, if_true]
          cases hv : (walkLoop n (fs.Walk u.Path) files).val with
          | none => exact absurd hv (walkLoop_val_ne_none n _ files hw)
          | some r =>
            obtain ⟨f1, e1⟩ := r
            cases e1 <;> simp
        | false => simp [hd, sliceFrom, hu]

/-! ## The loop over the selection -/

theorem sendLoop_val_cons (fs : FS) (baseDir : GoString) (n : Nat) (u : URI) (rest : List URI)
    (files : List DirectoryEntry) :
    (sendLoop fs baseDir n (u :: rest) files).val =
      (sendItem fs baseDir n files u).val.bind fun r =>
        match r with
        | .error err => some (.error err)
        | .ok files1 => (sendLoop fs baseDir n rest files1).val := by
  simp only [sendLoop, Eff.bind_val]
  cases (sendItem fs baseDir n files u).val with
  | none => rfl
  | some r => cases r <;> rfl

/-- The loop over `pre ++ post` is the loop over `pre` followed, unless it
returned an error, by the loop over `post` on the files accumulated so far. -/
theorem sendLoop_val_append (fs : FS) (baseDir : GoString) (n : Nat) (pre post : List URI) :
    ∀ files : List DirectoryEntry,
      (sendLoop fs baseDir n (pre ++ post) files).val =
        (sendLoop fs baseDir n pre files).val.bind fun r =>
          match r with
          | .error err => some (.error err)
          | .ok files1 => (sendLoop fs baseDir n post files1).val := by
  induction pre with
  | nil => intro files; simp [sendLoop]
  | cons u us ih =>
    intro files
    rw [List.cons_append, sendLoop_val_cons, sendLoop_val_cons]
    cases (sendItem fs baseDir n files u).val with
    | none => rfl
    | some r =>
      cases r with
      | error e => rfl
      | ok f1 => simpa using ih f1

/-- A loop that ends without error has passed the check for every item and has
collected exactly the entries of the items. -/
theorem sendLoop_val_inv (fs : FS) (baseDir : GoString) (n : Nat) (uris : List URI) :
    ∀ files files1 : List DirectoryEntry,
      (sendLoop fs baseDir n uris files).val = some (.ok files1) →
        files1 = files ++ uris.flatMap (itemEntries fs n) ∧
          ∀ u ∈ uris, PassesCheck fs baseDir u := by
  induction uris with
  | nil => intro files files1 h; simp_all [sendLoop]
  | cons u us ih =>
    intro files files1 h
    rw [sendLoop_val_cons] at h
    cases hv : (sendItem fs baseDir n files u).val with
    | none => simp [hv] at h
    | some r =>
      cases r with
      | error e => simp [hv] at h
      | ok f1 =>
        rw [hv] at h
        simp only [Option.some_bind] at h
        obtain ⟨hc, hf, _⟩ := sendItem_val_inv fs baseDir n files f1 u hv
        obtain ⟨h1, h2⟩ := ih f1 files1 h
        refine ⟨?_, ?_⟩
        · rw [h1, hf]; simp [List.flatMap_cons]
        · intro v hv'
          rcases List.mem_cons.mp hv' with rfl | hv'
          · exact hc
          · exact h2 v hv'

theorem sendLoop_val_ne_none (fs : FS) (baseDir : GoString) (n : Nat) (uris : List URI) :
    ∀ files : List DirectoryEntry,
      (∀ u ∈ uris, n ≤ u.Path.length ∧ ∀ w ∈ fs.Walk u.Path, n ≤ w.path.length) →
      (sendLoop fs baseDir n uris files).val ≠ none := by
  induction uris with
  | nil => intro files _; simp [sendLoop]
  | cons u us ih =>
    intro files h
    rw [sendLoop_val_cons]
    have hu := h u (List.mem_cons_self _ _)
    cases hv : (sendItem fs baseDir n files u).val with
    | none => exact absurd hv (sendItem_val_ne_none fs baseDir n files u hu.1 hu.2)
    | some r =>
      cases r with
      | error e => simp
      | ok f1 => exact ih f1 fun v hv' => h v (List.mem_cons_of_mem _ hv')

theorem sendLoop_ops_not_open (fs : FS) (baseDir : GoString) (n : Nat) (uris : List URI) :
    ∀ (files : List DirectoryEntry) (op : FsOp), op ∈ (sendLoop fs baseDir n uris files).ops →
      op.isOpen = false := by
  induction uris with
  | nil => intro files op h; simp [sendLoop] at h
  | cons u us ih =>
    intro files op h
    simp only [sendLoop] at h
    rcases Eff.mem_bind_ops _ _ _ h with h1 | ⟨r, _, h1⟩
    · exact sendItem_ops_not_open fs baseDir n files u op h1
    · cases r with
      | error e => simp at h1
      | ok f1 => exact ih f1 op h1

/-! ## The two senders -/

theorem NewDirSend_out (fs : FS) (dir : URI) :
    (NewDirSend fs dir).out =
      match (walkLoop (Split dir.Path).1.length (fs.Walk dir.Path) []).val with
      | none => .panic
      | some (_, some err) => .returned [] none (some (.fs err))
      | some (files, none) => .sendDirectory dir.Name files := by
  simp only [NewDirSend, appendFilesFromPath_val]
  cases (walkLoop (Split dir.Path).1.length (fs.Walk dir.Path) []).val with
  | none => rfl
  | some r =>
    obtain ⟨f1, e1⟩ := r
    cases e1 <;> rfl

theorem NewMultipleFileSend_out (fs : FS) (u : URI) (rest : List URI) :
    (NewMultipleFileSend fs (u :: rest)).out =
      match (sendLoop fs (Dir u.Path) (Split (Dir u.Path)).1.length (u :: rest) []).val with
      | none => .panic
      | some (.error err) => .returned [] none (some err)
      | some (.ok files) => .sendDirectory (Split (Dir u.Path)).2 files := by
  simp only [NewMultipleFileSend]
  cases (sendLoop fs (Dir u.Path) (Split (Dir u.Path)).1.length (u :: rest) []).val with
  | none => rfl
  | some r => cases r <;> rfl

/-! ## `filepath.Clean`: the fuel of its loop suffices -/

theorem cleanCopy_snd_length (rest : GoString) :
    ∀ out : GoString, (cleanCopy out rest).2.length ≤ rest.length := by
  induction rest with
  | nil => intro out; simp [cleanCopy]
  | cons c r ih =>
    intro out
    unfold cleanCopy
    split
    · simp
    · exact Nat.le_succ_of_le (ih _)

theorem cleanCopy_cons_snd_length (c : Char) (r out : GoString) (hc : IsPathSeparator c = false) :
    (cleanCopy out (c :: r)).2.length ≤ r.length := by
  rw [cleanCopy]
  simp only [hc, Bool.false_eq_true, if_false]
  exact cleanCopy_snd_length r _

/-- One more unit of fuel than the bytes left to read does not change the result. -/
theorem cleanLoop_fuel (rooted : Bool) (fuel : Nat) :
    ∀ (rest out : GoString) (dotdot : Nat), rest.length ≤ fuel →
      cleanLoop rooted (fuel + 1) rest out dotdot = cleanLoop rooted fuel rest out dotdot := by
  induction fuel with
  | zero =>
    intro rest out dotdot h
    have : rest = [] := List.length_eq_zero.mp (Nat.le_zero.mp h)
    subst this
    simp [cleanLoop]
  | succ fuel ih =>
    intro rest out dotdot h
    cases rest with
    | nil => simp [cleanLoop]
    | cons c r =>
      have hr : r.length ≤ fuel := by simpa using h
      have hd : (r.drop 1).length ≤ fuel := by
        rw [List.length_drop]; omega
      conv_lhs => rw [cleanLoop]
      conv_rhs => rw [cleanLoop]
      by_cases h1 : IsPathSeparator c = true
      · rw [if_pos h1, if_pos h1]
        exact ih _ _ _ hr
      · have h1f : IsPathSeparator c = false := by simpa using h1
        rw [if_neg h1, if_neg h1]
        by_cases h2 : (c == '.' && (r.isEmpty || IsPathSeparator (byteAt r 0))) = true
        · rw [if_pos h2, if_pos h2]
          exact ih _ _ _ hr
        · rw [if_neg h2, if_neg h2]
          by_cases h3 : (c == '.' && byteAt r 0 == '.' &&
              (r.length == 1 || IsPathSeparator (byteAt r 1))) = true
          · rw [if_pos h3, if_pos h3]
            by_cases h4 : out.length > dotdot
            · rw [if_pos h4, if_pos h4]
              exact ih _ _ _ hd
            · rw [if_neg h4, if_neg h4]
              by_cases h5 : (!rooted) = true
              · rw [if_pos h5, if_pos h5]
                exact ih _ _ _ hd
              · rw [if_neg h5, if_neg h5]
                exact ih _ _ _ hd
          · rw [if_neg h3, if_neg h3]
            exact ih _ _ _ (Nat.le_trans (cleanCopy_cons_snd_length c r _ h1f) hr)

/-- The loop of `Clean` has read the whole path when its fuel is used up: any
fuel from the number of bytes left on gives the same result. -/
theorem cleanLoop_fuel_le (rooted : Bool) (rest out : GoString) (dotdot : Nat) (extra : Nat) :
    cleanLoop rooted (rest.length + extra) rest out dotdot =
      cleanLoop rooted rest.length rest out dotdot := by
  induction extra with
  | zero => rfl
  | succ k ih =>
    rw [← Nat.add_assoc, cleanLoop_fuel rooted _ rest out dotdot (Nat.le_add_right _ _), ih]

/-! ## `filepath.Split` -/

theorem splitScan_le (p : GoString) (i : Nat) : splitScan p i ≤ i := by
  induction i with
  | zero => simp [splitScan]
  | succ i ih =>
    unfold splitScan
    split
    · exact Nat.le_refl _
    · exact Nat.le_succ_of_le ih

theorem splitScan_no_sep (p : GoString) (i : Nat) :
    ∀ j, splitScan p i ≤ j → j < i → IsPathSeparator (byteAt p j) = false := by
  induction i with
  | zero => intro j _ h; exact absurd h (Nat.not_lt_zero _)
  | succ i ih =>
    intro j h1 h2
    unfold splitScan at h1
    split at h1
    · omega
    · rename_i hs
      rcases Nat.lt_succ_iff_lt_or_eq.mp h2 with h3 | h3
      · exact ih j h1 h3
      · rw [h3]; simpa using hs

theorem Split_fst_length (p : GoString) : (Split p).1.length = splitScan p p.length := by
  simp [Split, List.length_take, splitScan_le p p.length]

theorem Split_fst_length_le (p : GoString) : (Split p).1.length ≤ p.length := by
  rw [Split_fst_length]; exact splitScan_le p p.length

theorem Split_append (p : GoString) : (Split p).1 ++ (Split p).2 = p := by
  simp [Split]

theorem Split_snd_no_sep (p : GoString) (c : Char) (h : c ∈ (Split p).2) :
    IsPathSeparator c = false := by
  simp only [Split] at h
  obtain ⟨j, hj, rfl⟩ := List.mem_iff_getElem.mp h
  rw [List.getElem_drop]
  rw [List.length_drop] at hj
  have := splitScan_no_sep p p.length (splitScan p p.length + j) (Nat.le_add_right _ _) (by omega)
  rw [byteAt, List.getD_eq_getElem _ _ (by omega)] at this
  exact this

theorem sepVariant_eq_of_no_sep (l l' : GoString) (h : SepVariant l l')
    (hs : ∀ c ∈ l, IsPathSeparator c = false) : l = l' := by
  unfold SepVariant at h
  induction h with
  | nil => rfl
  | @cons a b as bs hab _ ih =>
    have ha : IsPathSeparator a = false := hs a (List.mem_cons_self _ _)
    have hab1 : a = b := by
      rcases hab with h1 | ⟨h1, _⟩
      · exact h1
      · rw [ha] at h1; cases h1
    rw [hab1, ih fun c hc => hs c (List.mem_cons_of_mem _ hc)]

/-- Dropping the parent part of `R` from a path that starts with a copy of `R`
in mixed separators leaves the base name of `R` and what follows the copy. -/
theorem drop_sepVariant (R R' rest : GoString) (h : SepVariant R R') :
    (R' ++ rest).drop (Split R).1.length = (Split R).2 ++ rest := by
  have hlen : R.length = R'.length := List.Forall₂.length_eq h
  have hk : (Split R).1.length ≤ R'.length := by rw [← hlen]; exact Split_fst_length_le R
  rw [List.drop_append_of_le_length hk]
  congr 1
  have h1 : SepVariant (R.drop (Split R).1.length) (R'.drop (Split R).1.length) :=
    List.forall₂_drop (Split R).1.length h
  have h2 : R.drop (Split R).1.length = (Split R).2 := by
    rw [Split_fst_length]; rfl
  rw [h2] at h1
  exact (sepVariant_eq_of_no_sep _ _ h1 (Split_snd_no_sep R)).symm

/-! ## Directory enumeration -/

/-- C2. Mixed-selection enumeration: in a non-empty selection `u0 :: rest`, let
`u` be an item such that the loop over the items before it ends without error
(with whatever entries `acc` accumulated) and whose resolved path
`Abs(Join(baseDir, u.Name))`, `baseDir = Dir(u0.Path)`, does not start with
`baseDir`. Then `NewMultipleFileSend` returns the path-escape error with the
empty code and the nil channel, it hands no entry list to `SendDirectory`, and
the path-escape error is no file-system error. -/
theorem C2_escape_aborts (fs : FS) (u0 : URI) (rest pre : List URI) (u : URI) (post : List URI)
    (acc : List DirectoryEntry) (a : GoString)
    (hsel : u0 :: rest = pre ++ u :: post)
    (hpre : (sendLoop fs (Dir u0.Path) (Split (Dir u0.Path)).1.length pre []).val =
      some (.ok acc))
    (ha : (Abs fs (Join [Dir u0.Path, u.Name])).val = some (.ok a))
    (hesc : HasPrefix a (Dir u0.Path) = false) :
    (NewMultipleFileSend fs (u0 :: rest)).out =
        .returned [] none (some .ErrorDangerousFilename) ∧
      (∀ name files, (NewMultipleFileSend fs (u0 :: rest)).out ≠ .sendDirectory name files) ∧
      ∀ e : FsError, Error.ErrorDangerousFilename ≠ Error.fs e := by
  have hout : (NewMultipleFileSend fs (u0 :: rest)).out =
      .returned [] none (some .ErrorDangerousFilename) := by
    rw [NewMultipleFileSend_out, hsel, sendLoop_val_append, hpre]
    simp only [Option.some_bind]
    rw [sendLoop_val_cons, sendItem_val_escape _ _ _ _ _ a ha hesc]
    rfl
  refine ⟨hout, ?_, ?_⟩
  · intro name files h
    rw [hout] at h
    cases h
  · intro e h
    cases h

/-- C2 at the example: after the file `/a/dir/f` has been accepted, an item
named `../x` aborts the call with the path-escape error. -/
theorem C2_escape_aborts_witness :
    (sendLoop demoFS (Dir demoFile.Path) (Split (Dir demoFile.Path)).1.length [demoFile] []).val =
        some (.ok [⟨"dir/f".toList, 0o644, ⟨"/a/dir/f".toList⟩⟩]) ∧
      (Abs demoFS (Join [Dir demoFile.Path, climbingItem.Name])).val = some (.ok "/a/x".toList) ∧
      HasPrefix "/a/x".toList (Dir demoFile.Path) = false ∧
      (NewMultipleFileSend demoFS [demoFile, climbingItem]).out =
        .returned [] none (some .ErrorDangerousFilename) :=
  ⟨rfl, rfl, by decide,
    (C2_escape_aborts demoFS demoFile [climbingItem] [demoFile] climbingItem []
      [⟨"dir/f".toList, 0o644, ⟨"/a/dir/f".toList⟩⟩] "/a/x".toList rfl rfl rfl
      (by decide)).1⟩

/-- C3. The containment check has a false negative: for the item named
`../dir2/x` with path `/a/dir/f` the base directory is `/a/dir`, the resolved
path is `/a/dir2/x`, which is not within `/a/dir` by path components (it lies in
the sibling `/a/dir2`), and yet the selection is accepted and handed to
`SendDirectory`. -/
theorem C3_sibling_accepted :
    Dir siblingItem.Path = "/a/dir".toList ∧
      (Abs demoFS (Join [Dir siblingItem.Path, siblingItem.Name])).val =
        some (.ok "/a/dir2/x".toList) ∧
      IsWithin "/a/dir".toList "/a/dir2/x".toList = false ∧
      HasPrefix "/a/dir2/x".toList "/a/dir".toList = true ∧
      (NewMultipleFileSend demoFS [siblingItem]).out =
        .sendDirectory "dir".toList [⟨"dir/f".toList, 0o644, ⟨"/a/dir/f".toList⟩⟩] := by
  refine ⟨by decide, rfl, by decide, by decide, by decide⟩

/-! ## Failures -/

theorem walkEntries_map_Path (n : Nat) (items : List WalkItem) :
    (walkEntries n items).map DirectoryEntry.Path = (walkFilePaths items).map (List.drop n) := by
  induction items with
  | nil => rfl
  | cons w ws ih =>
    obtain ⟨path, err, isDir, info⟩ := w
    simp only [walkEntries, walkFilePaths] at ih ⊢
    cases err <;> cases isDir <;> cases info <;>
      simp [List.filterMap_cons, List.filter_cons, WalkItem.entry, WalkItem.isRegularFile, ih]
    rename_i info
    by_cases hr : info.Mode.IsRegular = true <;> simp [hr, ih]

theorem itemEntries_map_Path (fs : FS) (n : Nat) (u : URI) :
    (itemEntries fs n u).map DirectoryEntry.Path = (itemFilePaths fs u).map (List.drop n) := by
  unfold itemEntries itemFilePaths
  cases fs.Lstat u.Path with
  | error e => rfl
  | ok info =>
    cases hd : info.IsDir with
    | true => simp [hd, walkEntries_map_Path]
    | false => simp [hd]

theorem flatMap_itemEntries_map_Path (fs : FS) (n : Nat) (uris : List URI) :
    (uris.flatMap (itemEntries fs n)).map DirectoryEntry.Path =
      (uris.flatMap (itemFilePaths fs)).map (List.drop n) := by
  induction uris with
  | nil => rfl
  | cons u us ih => simp [List.flatMap_cons, itemEntries_map_Path, ih]

/-- Two paths with a common start that agree after it are equal. -/
theorem eq_of_drop_eq (pre p q : GoString) (hp : pre <+: p) (hq : pre <+: q)
    (h : p.drop pre.length = q.drop pre.length) : p = q := by
  obtain ⟨p1, rfl⟩ := hp
  obtain ⟨q1, rfl⟩ := hq
  simp at h
  rw [h]

theorem nodup_map_drop (pre : GoString) (paths : List GoString) (hd : paths.Nodup)
    (hp : ∀ p ∈ paths, pre <+: p) : (paths.map (List.drop pre.length)).Nodup :=
  List.Nodup.map_on (fun p hp1 q hq1 h => eq_of_drop_eq pre p q (hp p hp1) (hp q hq1) h) hd

/-- C5 as stated fails: a selection that names the file `/a/dir/f` twice is
accepted and yields two entries with the same relative path `dir/f`. -/
theorem C5_duplicate_counterexample :
    (NewMultipleFileSend demoFS [demoFile, demoFile]).out =
        .sendDirectory "dir".toList
          [⟨"dir/f".toList, 0o644, ⟨"/a/dir/f".toList⟩⟩,
           ⟨"dir/f".toList, 0o644, ⟨"/a/dir/f".toList⟩⟩] ∧
      ¬ ([(⟨"dir/f".toList, 0o644, ⟨"/a/dir/f".toList⟩⟩ : DirectoryEntry),
          ⟨"dir/f".toList, 0o644, ⟨"/a/dir/f".toList⟩⟩].map DirectoryEntry.Path).Nodup := by
  refine ⟨by decide, by decide⟩

/-- C5, amended. No two entries handed to `SendDirectory` have the same relative
path whenever the enumerated files have pairwise distinct full paths that all
start with the parent part whose length is the prefix length: for `NewDirSend`
the regular files of the walk and the parent part of `Split(R)`, for
`NewMultipleFileSend` the files of all items (`itemFilePaths`) and the parent
part of `Split(baseDir)`. -/
theorem C5_unique_relative_paths :
    (∀ (fs : FS) (dir : URI) (name : GoString) (files : List DirectoryEntry),
        (NewDirSend fs dir).out = .sendDirectory name files →
        (walkFilePaths (fs.Walk dir.Path)).Nodup →
        (∀ p ∈ walkFilePaths (fs.Walk dir.Path), (Split dir.Path).1 <+: p) →
        (files.map DirectoryEntry.Path).Nodup) ∧
      ∀ (fs : FS) (u0 : URI) (rest : List URI) (name : GoString) (files : List DirectoryEntry),
        (NewMultipleFileSend fs (u0 :: rest)).out = .sendDirectory name files →
        ((u0 :: rest).flatMap (itemFilePaths fs)).Nodup →
        (∀ p ∈ (u0 :: rest).flatMap (itemFilePaths fs), (Split (Dir u0.Path)).1 <+: p) →
        (files.map DirectoryEntry.Path).Nodup := by
  refine ⟨?_, ?_⟩
  · intro fs dir name files hout hnd hpre
    rw [NewDirSend_out] at hout
    cases hv : (walkLoop (Split dir.Path).1.length (fs.Walk dir.Path) []).val with
    | none => rw [hv] at hout; cases hout
    | some r =>
      obtain ⟨f1, e1⟩ := r
      cases e1 with
      | some e => rw [hv] at hout; cases hout
      | none =>
        rw [hv] at hout
        injection hout with _ hfiles
        have h1 := (walkLoop_val_inv _ _ [] f1 hv).1
        rw [← hfiles, h1, List.nil_append, walkEntries_map_Path]
        exact nodup_map_drop _ _ hnd hpre
  · intro fs u0 rest name files hout hnd hpre
    rw [NewMultipleFileSend_out] at hout
    cases hv : (sendLoop fs (Dir u0.Path) (Split (Dir u0.Path)).1.length (u0 :: rest) []).val with
    | none => rw [hv] at hout; cases hout
    | some r =>
      cases r with
      | error e => rw [hv] at hout; cases hout
      | ok f1 =>
        rw [hv] at hout
        injection hout with _ hfiles
        have h1 := (sendLoop_val_inv _ _ _ _ [] f1 hv).1
        rw [← hfiles, h1, List.nil_append, flatMap_itemEntries_map_Path]
        exact nodup_map_drop _ _ hnd hpre

/-- C5, amended, at the example: the selection of `/a/dir/f` and `/a/dir/sub`
enumerates three distinct files under `/a/`, and the three relative paths are
distinct. -/
theorem C5_unique_relative_paths_witness :
    (NewMultipleFileSend demoFS [demoFile, demoSub]).out =
        .sendDirectory "dir".toList
          [⟨"dir/f".toList, 0o644, ⟨"/a/dir/f".toList⟩⟩,
           ⟨"dir/sub/x".toList, 0o600, ⟨"/a/dir/sub/x".toList⟩⟩,
           ⟨"dir/sub/y".toList, 0o640, ⟨"/a/dir/sub/y".toList⟩⟩] ∧
      ([demoFile, demoSub].flatMap (itemFilePaths demoFS)).Nodup ∧
      (∀ p ∈ [demoFile, demoSub].flatMap (itemFilePaths demoFS),
        (Split (Dir demoFile.Path)).1 <+: p) ∧
      (["dir/f".toList, "dir/sub/x".toList, "dir/sub/y".toList] : List GoString).Nodup :=
  ⟨by decide, by decide, by decide,
    C5_unique_relative_paths.2 demoFS demoFile [demoSub] "dir".toList
      [⟨"dir/f".toList, 0o644, ⟨"/a/dir/f".toList⟩⟩,
        ⟨"dir/sub/x".toList, 0o600, ⟨"/a/dir/sub/x".toList⟩⟩,
        ⟨"dir/sub/y".toList, 0o640, ⟨"/a/dir/sub/y".toList⟩⟩]
      (by decide) (by decide) (by decide)⟩

/-! ## Mixed selections -/

/-- Dropping the parent part of `P` from a path that extends `P` leaves the base
name of `P` and the extension. -/
theorem drop_parent (P rest : GoString) :
    (P ++ rest).drop (Split P).1.length = (Split P).2 ++ rest := by
  rw [List.drop_append_of_le_length (Split_fst_length_le P), Split_fst_length]
  rfl

theorem WalkItem.entry_Path (n : Nat) (w : WalkItem) (e : DirectoryEntry)
    (h : w.entry n = some e) : e.Path = w.path.drop n ∧ e.Reader.openPath = w.path ∧
      w.isRegularFile = true ∧ ∃ info, w.info = .ok info ∧ e.Mode = info.Mode := by
  obtain ⟨path, err, isDir, info⟩ := w
  cases err <;> cases isDir <;> cases info <;>
    simp [WalkItem.entry] at h
  obtain ⟨hr, rfl⟩ := h
  simp [WalkItem.isRegularFile, hr]

/-- C7. Separator-agnostic prefix stripping: the prefix length is the length of
the parent part of `Split(R)`, where parent and base make up `R`. For every
root `R` and every path `p` that consists of a copy `R'` of `R` in which
separators may be written in the other convention, then a byte `sep` and a
remainder, `p[prefixLength:]` is in range and is the base name of `R`, then
`sep` and the remainder; it is what the slice yields when `p` uses `R`'s own
separators, and it is the relative path the walk callback gives the entry of a
regular file visited at `p`. -/
theorem C7_separator_agnostic (R R' rest : GoString) (sep : Char) (h : SepVariant R R') :
    (Split R).1 ++ (Split R).2 = R ∧
      sliceFrom (R' ++ sep :: rest) (Split R).1.length = some ((Split R).2 ++ sep :: rest) ∧
      sliceFrom (R' ++ sep :: rest) (Split R).1.length =
        sliceFrom (R ++ sep :: rest) (Split R).1.length ∧
      ∀ (files : List DirectoryEntry) (info : FileInfo), info.Mode.IsRegular = true →
        (walkFn (Split R).1.length files ⟨R' ++ sep :: rest, none, false, .ok info⟩).val =
          some (files ++ [⟨(Split R).2 ++ sep :: rest, info.Mode, ⟨R' ++ sep :: rest⟩⟩], none) := by
  have hlen : R.length = R'.length := List.Forall₂.length_eq h
  have hk : (Split R).1.length ≤ (R' ++ sep :: rest).length := by
    rw [List.length_append, ← hlen]
    exact Nat.le_trans (Split_fst_length_le R) (Nat.le_add_right _ _)
  have h1 : sliceFrom (R' ++ sep :: rest) (Split R).1.length =
      some ((Split R).2 ++ sep :: rest) := by
    rw [sliceFrom, if_pos hk, drop_sepVariant R R' _ h]
  have h2 : sliceFrom (R ++ sep :: rest) (Split R).1.length =
      some ((Split R).2 ++ sep :: rest) := by
    rw [sliceFrom, if_pos (by
      rw [List.length_append]
      exact Nat.le_trans (Split_fst_length_le R) (Nat.le_add_right _ _)), drop_parent]
  refine ⟨Split_append R, h1, h1.trans h2.symm, ?_⟩
  intro files info hr
  simp [walkFn, Eff.bind, hr, h1]

/-- C7 at the example: for the root `/a/dir/sub` and the path `\a\dir/sub\x` the
relative path is `sub\x`. -/
theorem C7_separator_agnostic_witness :
    SepVariant "/a/dir/sub".toList "\\a\\dir/sub".toList ∧
      sliceFrom "\\a\\dir/sub\\x".toList (Split "/a/dir/sub".toList).1.length =
        some "sub\\x".toList :=
  ⟨by simp [SepVariant, IsPathSeparator],
    (C7_separator_agnostic "/a/dir/sub".toList "\\a\\dir/sub".toList "x".toList '\\'
      (by simp [SepVariant, IsPathSeparator])).2.1.trans (by decide)⟩

/-! ## What the entries carry -/

theorem NewDirSend_ops_not_open (fs : FS) (dir : URI) (op : FsOp)
    (h : op ∈ (NewDirSend fs dir).ops) : op.isOpen = false := by
  have h1 : (NewDirSend fs dir).ops =
      (appendFilesFromPath fs [] dir.Path (Split dir.Path).1.length).ops := by
    simp only [NewDirSend]
    cases (appendFilesFromPath fs [] dir.Path (Split dir.Path).1.length).val with
    | none => rfl
    | some r =>
      obtain ⟨f1, e1⟩ := r
      cases e1 <;> rfl
  rw [h1] at h
  exact appendFilesFromPath_ops_not_open fs [] dir.Path _ op h

theorem NewMultipleFileSend_ops_not_open (fs : FS) (uris : List URI) (op : FsOp)
    (h : op ∈ (NewMultipleFileSend fs uris).ops) : op.isOpen = false := by
  cases uris with
  | nil => simp [NewMultipleFileSend] at h
  | cons u rest =>
    have h1 : (NewMultipleFileSend fs (u :: rest)).ops =
        (sendLoop fs (Dir u.Path) (Split (Dir u.Path)).1.length (u :: rest) []).ops := by
      simp only [NewMultipleFileSend]
      cases (sendLoop fs (Dir u.Path) (Split (Dir u.Path)).1.length (u :: rest) []).val with
      | none => rfl
      | some r => cases r <;> rfl
    rw [h1] at h
    exact sendLoop_ops_not_open fs _ _ _ [] op h

/-- The files `NewDirSend` hands over are the entries of the walk. -/
theorem NewDirSend_files (fs : FS) (dir : URI) (name : GoString) (files : List DirectoryEntry)
    (h : (NewDirSend fs dir).out = .sendDirectory name files) :
    files = walkEntries (Split dir.Path).1.length (fs.Walk dir.Path) := by
  rw [NewDirSend_out] at h
  cases hv : (walkLoop (Split dir.Path).1.length (fs.Walk dir.Path) []).val with
  | none => rw [hv] at h; cases h
  | some r =>
    obtain ⟨f1, e1⟩ := r
    cases e1 with
    | some e => rw [hv] at h; cases h
    | none =>
      rw [hv] at h
      injection h with _ hfiles
      rw [← hfiles, (walkLoop_val_inv _ _ [] f1 hv).1, List.nil_append]

/-- The files `NewMultipleFileSend` hands over are the entries of the items. -/
theorem NewMultipleFileSend_files (fs : FS) (u0 : URI) (rest : List URI) (name : GoString)
    (files : List DirectoryEntry)
    (h : (NewMultipleFileSend fs (u0 :: rest)).out = .sendDirectory name files) :
    files = (u0 :: rest).flatMap (itemEntries fs (Split (Dir u0.Path)).1.length) := by
  rw [NewMultipleFileSend_out] at h
  cases hv : (sendLoop fs (Dir u0.Path) (Split (Dir u0.Path)).1.length (u0 :: rest) []).val with
  | none => rw [hv] at h; cases h
  | some r =>
    cases r with
    | error e => rw [hv] at h; cases h
    | ok f1 =>
      rw [hv] at h
      injection h with _ hfiles
      rw [← hfiles, (sendLoop_val_inv _ _ _ _ [] f1 hv).1, List.nil_append]

/-- An entry of a selected item is the entry of the item itself, which is no
directory, or the entry of a file visited by the walk of the item. -/
theorem mem_itemEntries (fs : FS) (n : Nat) (u : URI) (e : DirectoryEntry)
    (h : e ∈ itemEntries fs n u) :
    (∃ info, fs.Lstat u.Path = .ok info ∧ info.IsDir = false ∧
        e = ⟨u.Path.drop n, info.Mode, ⟨Clean u.Path⟩⟩) ∨
      ∃ info, fs.Lstat u.Path = .ok info ∧ info.IsDir = true ∧
        ∃ w ∈ fs.Walk u.Path, w.entry n = some e := by
  unfold itemEntries at h
  cases hl : fs.Lstat u.Path with
  | error err => simp [hl] at h
  | ok info =>
    rw [hl] at h
    cases hd : info.IsDir with
    | true =>
      simp only [hd, if_true] at h
      obtain ⟨w, hw, hwe⟩ := List.mem_filterMap.mp h
      exact Or.inr ⟨info, rfl, hd, w, hw, hwe⟩
    | false =>
      simp only [hd, Bool.false_eq_true, if_false, List.mem_singleton] at h
      exact Or.inl ⟨info, rfl, hd, h⟩

/-- C8 as stated fails in its last sentence: for the selected item with the path
`/a/dir/sub/../f` the entry's reader opens `/a/dir/f`, the cleaned path, not the
path the entry was created for. -/
theorem C8_reader_counterexample :
    (NewMultipleFileSend dotdotFS [dotdotItem]).out =
        .sendDirectory "dir".toList
          [⟨"dir/sub/../f".toList, 0o644, ⟨"/a/dir/f".toList⟩⟩] ∧
      (Reader.mk "/a/dir/f".toList).invoke = [FsOp.fileOpen "/a/dir/f".toList] ∧
      (Reader.mk "/a/dir/f".toList).invoke ≠ [FsOp.fileOpen dotdotItem.Path] := by
  refine ⟨by decide, by decide, by decide⟩

/-- C8, amended. No content access during enumeration: every file-system call
`NewDirSend` and `NewMultipleFileSend` make is `Getwd`, `Lstat`, the directory
walk or `Info()` of a visited entry, none opens a file, and no reader is
invoked. The reader of an entry from a walk, when invoked, opens exactly the
visited path; the reader of the entry of a top-level item opens
`filepath.Clean` of the item's path, which is the item's path whenever that
path is clean. -/
theorem C8_no_open_during_enumeration :
    (∀ (fs : FS) (dir : URI) (op : FsOp), op ∈ (NewDirSend fs dir).ops → op.isOpen = false) ∧
      (∀ (fs : FS) (uris : List URI) (op : FsOp),
        op ∈ (NewMultipleFileSend fs uris).ops → op.isOpen = false) ∧
      (∀ (fs : FS) (dir : URI) (name : GoString) (files : List DirectoryEntry),
        (NewDirSend fs dir).out = .sendDirectory name files →
        ∀ e ∈ files, ∃ w ∈ fs.Walk dir.Path, w.isRegularFile = true ∧
          e.Path = w.path.drop (Split dir.Path).1.length ∧
          e.Reader.invoke = [FsOp.fileOpen w.path]) ∧
      ∀ (fs : FS) (u0 : URI) (rest : List URI) (name : GoString) (files : List DirectoryEntry),
        (NewMultipleFileSend fs (u0 :: rest)).out = .sendDirectory name files →
        ∀ e ∈ files,
          (∃ u ∈ u0 :: rest, ∃ info, fs.Lstat u.Path = .ok info ∧ info.IsDir = false ∧
            e.Path = u.Path.drop (Split (Dir u0.Path)).1.length ∧
            e.Reader.invoke = [FsOp.fileOpen (Clean u.Path)] ∧
            (Clean u.Path = u.Path → e.Reader.invoke = [FsOp.fileOpen u.Path])) ∨
          ∃ u ∈ u0 :: rest, ∃ w ∈ fs.Walk u.Path, w.isRegularFile = true ∧
            e.Path = w.path.drop (Split (Dir u0.Path)).1.length ∧
            e.Reader.invoke = [FsOp.fileOpen w.path] := by
  refine ⟨NewDirSend_ops_not_open, NewMultipleFileSend_ops_not_open, ?_, ?_⟩
  · intro fs dir name files hout e he
    rw [NewDirSend_files fs dir name files hout] at he
    obtain ⟨w, hw, hwe⟩ := List.mem_filterMap.mp he
    obtain ⟨h1, h2, h3, _⟩ := WalkItem.entry_Path _ w e hwe
    exact ⟨w, hw, h3, h1, by rw [Reader.invoke, h2]⟩
  · intro fs u0 rest name files hout e he
    rw [NewMultipleFileSend_files fs u0 rest name files hout] at he
    obtain ⟨u, hu, hue⟩ := List.mem_flatMap.mp he
    rcases mem_itemEntries fs _ u e hue with ⟨info, hl, hd, rfl⟩ | ⟨info, _, _, w, hw, hwe⟩
    · exact Or.inl ⟨u, hu, info, hl, hd, rfl, rfl, fun hc => by rw [Reader.invoke, hc]⟩
    · obtain ⟨h1, h2, h3, _⟩ := WalkItem.entry_Path _ w e hwe
      exact Or.inr ⟨u, hu, w, hw, h3, h1, by rw [Reader.invoke, h2]⟩

/-- C8, amended, at the example: the enumeration of `/a/dir/f` and `/a/dir/sub`
makes six calls, none of which opens a file, and the reader of the entry
`dir/sub/x` opens `/a/dir/sub/x`. -/
theorem C8_no_open_during_enumeration_witness :
    (NewMultipleFileSend demoFS [demoFile, demoSub]).ops =
        [.lstat "/a/dir/f".toList, .lstat "/a/dir/sub".toList, .walkDir "/a/dir/sub".toList,
          .entryInfo "/a/dir/sub/x".toList, .entryInfo "/a/dir/sub/l".toList,
          .entryInfo "/a/dir/sub/y".toList] ∧
      FsOp.isOpen (.entryInfo "/a/dir/sub/x".toList) = false ∧
      ∃ w ∈ demoFS.Walk demoSub.Path, w.isRegularFile = true ∧
        "sub/x".toList = w.path.drop (Split demoSub.Path).1.length ∧
        (Reader.mk "/a/dir/sub/x".toList).invoke = [FsOp.fileOpen w.path] :=
  ⟨by decide,
    C8_no_open_during_enumeration.2.1 demoFS [demoFile, demoSub] _ (by decide),
    C8_no_open_during_enumeration.2.2.1 demoFS demoSub "sub".toList
      [⟨"sub/x".toList, 0o600, ⟨"/a/dir/sub/x".toList⟩⟩,
        ⟨"sub/y".toList, 0o640, ⟨"/a/dir/sub/y".toList⟩⟩] (by decide)
      ⟨"sub/x".toList, 0o600, ⟨"/a/dir/sub/x".toList⟩⟩ (List.mem_cons_self _ _)⟩

/-- C9. Mode preservation: every entry handed to `SendDirectory` carries the
full mode value the metadata reported, permission and type bits unchanged: for
an entry from a walk the mode of `entry.Info()` of the visited file, for the
entry of a top-level item the mode of `Lstat` of the item's path. -/
theorem C9_mode_preserved :
    (∀ (fs : FS) (dir : URI) (name : GoString) (files : List DirectoryEntry),
        (NewDirSend fs dir).out = .sendDirectory name files →
        ∀ e ∈ files, ∃ w ∈ fs.Walk dir.Path, ∃ info, w.info = .ok info ∧
          e.Path = w.path.drop (Split dir.Path).1.length ∧ e.Mode = info.Mode) ∧
      ∀ (fs : FS) (u0 : URI) (rest : List URI) (name : GoString) (files : List DirectoryEntry),
        (NewMultipleFileSend fs (u0 :: rest)).out = .sendDirectory name files →
        ∀ e ∈ files,
          (∃ u ∈ u0 :: rest, ∃ info, fs.Lstat u.Path = .ok info ∧
            e.Path = u.Path.drop (Split (Dir u0.Path)).1.length ∧ e.Mode = info.Mode) ∨
          ∃ u ∈ u0 :: rest, ∃ w ∈ fs.Walk u.Path, ∃ info, w.info = .ok info ∧
            e.Path = w.path.drop (Split (Dir u0.Path)).1.length ∧ e.Mode = info.Mode := by
  refine ⟨?_, ?_⟩
  · intro fs dir name files hout e he
    rw [NewDirSend_files fs dir name files hout] at he
    obtain ⟨w, hw, hwe⟩ := List.mem_filterMap.mp he
    obtain ⟨h1, _, _, info, h4, h5⟩ := WalkItem.entry_Path _ w e hwe
    exact ⟨w, hw, info, h4, h1, h5⟩
  · intro fs u0 rest name files hout e he
    rw [NewMultipleFileSend_files fs u0 rest name files hout] at he
    obtain ⟨u, hu, hue⟩ := List.mem_flatMap.mp he
    rcases mem_itemEntries fs _ u e hue with ⟨info, hl, _, rfl⟩ | ⟨_, _, _, w, hw, hwe⟩
    · exact Or.inl ⟨u, hu, info, hl, rfl, rfl⟩
    · obtain ⟨h1, _, _, info, h4, h5⟩ := WalkItem.entry_Path _ w e hwe
      exact Or.inr ⟨u, hu, w, hw, info, h4, h1, h5⟩

/-- C9 at the example: the entry `sub/y` of the walk of `/a/dir/sub` carries the
mode `0640` that `Info()` reported for `/a/dir/sub/y`. -/
theorem C9_mode_preserved_witness :
    (NewDirSend demoFS demoSub).out =
        .sendDirectory "sub".toList
          [⟨"sub/x".toList, 0o600, ⟨"/a/dir/sub/x".toList⟩⟩,
           ⟨"sub/y".toList, 0o640, ⟨"/a/dir/sub/y".toList⟩⟩] ∧
      ∃ w ∈ demoFS.Walk demoSub.Path, ∃ info, w.info = .ok info ∧
        "sub/y".toList = w.path.drop (Split demoSub.Path).1.length ∧ 0o640 = info.Mode :=
  ⟨by decide,
    C9_mode_preserved.1 demoFS demoSub "sub".toList
      [⟨"sub/x".toList, 0o600, ⟨"/a/dir/sub/x".toList⟩⟩,
        ⟨"sub/y".toList, 0o640, ⟨"/a/dir/sub/y".toList⟩⟩] (by decide)
      ⟨"sub/y".toList, 0o640, ⟨"/a/dir/sub/y".toList⟩⟩
      (List.mem_cons_of_mem _ (List.mem_cons_self _ _))⟩

/-! ## Slice bounds -/

/-- C10. Slice-bounds safety. (1) `NewDirSend`: when every path visited by the
walk has the root path as a string prefix, the prefix length is at most the
length of every visited path and the call does not panic. (2)
`NewMultipleFileSend`: for a non-empty selection in which every item's path is
at least as long as the parent part of `Split(Dir(uris[0].Path))`, the walks of
the items visiting paths that extend the item's path, the call does not panic.
(3) On the empty selection `uris[0]` is out of range. (4) An item with a shorter
path from another parent (`/b`, after `/a/dir/f`) makes the slice
`path[prefix:]` out of range. -/
theorem C10_slice_bounds :
    (∀ (fs : FS) (dir : URI), (∀ w ∈ fs.Walk dir.Path, dir.Path <+: w.path) →
        (∀ w ∈ fs.Walk dir.Path, (Split dir.Path).1.length ≤ w.path.length ∧
          (sliceFrom w.path (Split dir.Path).1.length).isSome = true) ∧
        (NewDirSend fs dir).out ≠ .panic) ∧
      (∀ (fs : FS) (u0 : URI) (rest : List URI),
        (∀ u ∈ u0 :: rest, (Split (Dir u0.Path)).1.length ≤ u.Path.length) →
        (∀ u ∈ u0 :: rest, ∀ w ∈ fs.Walk u.Path, u.Path <+: w.path) →
        (NewMultipleFileSend fs (u0 :: rest)).out ≠ .panic) ∧
      (∀ fs : FS, (NewMultipleFileSend fs []).out = .panic) ∧
      (Split (Dir demoFile.Path)).1.length = 3 ∧ shortItem.Path.length = 2 ∧
      (NewMultipleFileSend shortFS [demoFile, shortItem]).out = .panic := by
  refine ⟨?_, ?_, fun _ => rfl, by decide, by decide, by decide⟩
  · intro fs dir h
    have hlen : ∀ w ∈ fs.Walk dir.Path, (Split dir.Path).1.length ≤ w.path.length :=
      fun w hw => Nat.le_trans (Split_fst_length_le dir.Path) (h w hw).length_le
    refine ⟨fun w hw => ⟨hlen w hw, by simp [sliceFrom, hlen w hw]⟩, ?_⟩
    rw [NewDirSend_out]
    cases hv : (walkLoop (Split dir.Path).1.length (fs.Walk dir.Path) []).val with
    | none => exact absurd hv (walkLoop_val_ne_none _ _ [] hlen)
    | some r =>
      obtain ⟨f1, e1⟩ := r
      cases e1 <;> simp
  · intro fs u0 rest hu hw
    rw [NewMultipleFileSend_out]
    cases hv : (sendLoop fs (Dir u0.Path) (Split (Dir u0.Path)).1.length (u0 :: rest) []).val with
    | none =>
      exact absurd hv (sendLoop_val_ne_none fs _ _ _ [] fun u hu1 =>
        ⟨hu u hu1, fun w hw1 => Nat.le_trans (hu u hu1) (hw u hu1 w hw1).length_le⟩)
    | some r => cases r <;> simp

/-- C10 at the example: the walk of `/a/dir/sub` visits paths that extend it, and
`NewDirSend` does not panic; neither does `NewMultipleFileSend` on `/a/dir/f`
and `/a/dir/sub`. -/
theorem C10_slice_bounds_witness :
    (∀ w ∈ demoFS.Walk demoSub.Path, demoSub.Path <+: w.path) ∧
      (NewDirSend demoFS demoSub).out ≠ .panic ∧
      (∀ u ∈ [demoFile, demoSub], (Split (Dir demoFile.Path)).1.length ≤ u.Path.length) ∧
      (NewMultipleFileSend demoFS [demoFile, demoSub]).out ≠ .panic :=
  ⟨by decide, (C10_slice_bounds.1 demoFS demoSub (by decide)).2, by decide,
    C10_slice_bounds.2.1 demoFS demoFile [demoSub] (by decide) (by
      intro u hu
      rcases List.mem_cons.mp hu with rfl | hu
      · intro w hw
        simp [demoFS, demoFile] at hw
        subst hw
        exact List.prefix_refl _
      · rcases List.mem_cons.mp hu with rfl | hu
        · decide
        · cases hu)⟩

/-! ## Top-level items and the regular-file filter -/

/-- C11. Top-level items bypass the regular-file filter. (1) In the loop of
`NewMultipleFileSend` an item that passes the escape check, whose `Lstat`
result is no directory and whose path reaches the prefix length, appends
exactly one entry, with the mode `Lstat` reported, whether or not that mode is
the mode of a regular file. (2) The callback of `appendFilesFromPath` appends
nothing for a visited entry that is no directory and whose mode is not the mode
of a regular file. (3) Hence the entries of a mixed selection are not
restricted to regular files: the symbolic link `/a/dir/sub/l`, selected as a
top-level item after `/a/dir/sub/x`, is handed to `SendDirectory` with its
symbolic-link mode, while the walk of `/a/dir/sub`, which visits the same
link, yields no entry for it. -/
theorem C11_top_level_bypasses_filter :
    (∀ (fs : FS) (baseDir : GoString) (n : Nat) (files : List DirectoryEntry) (u : URI)
        (info : FileInfo),
        PassesCheck fs baseDir u → fs.Lstat u.Path = .ok info → info.IsDir = false →
        n ≤ u.Path.length →
        (sendItem fs baseDir n files u).val =
          some (.ok (files ++ [⟨u.Path.drop n, info.Mode, ⟨Clean u.Path⟩⟩]))) ∧
      (∀ (n : Nat) (files : List DirectoryEntry) (path : GoString) (info : FileInfo),
        info.Mode.IsRegular = false →
        (walkFn n files ⟨path, none, false, .ok info⟩).val = some (files, none)) ∧
      FileMode.IsRegular (ModeSymlink ||| 0o777) = false ∧
      FileInfo.IsDir ⟨ModeSymlink ||| 0o777⟩ = false ∧
      (NewMultipleFileSend linkFS [linkItem]).out =
        .sendDirectory "sub".toList
          [⟨"sub/l".toList, ModeSymlink ||| 0o777, ⟨"/a/dir/sub/l".toList⟩⟩] ∧
      (⟨"/a/dir/sub/l".toList, none, false, .ok ⟨ModeSymlink ||| 0o777⟩⟩ : WalkItem) ∈
        linkFS.Walk demoSub.Path ∧
      (NewDirSend linkFS demoSub).out =
        .sendDirectory "sub".toList
          [⟨"sub/x".toList, 0o600, ⟨"/a/dir/sub/x".toList⟩⟩,
           ⟨"sub/y".toList, 0o640, ⟨"/a/dir/sub/y".toList⟩⟩] := by
  refine ⟨?_, ?_, by decide, by decide, by decide, ?_, by decide⟩
  · intro fs baseDir n files u info hc hl hd hn
    rw [sendItem_val_checked fs baseDir n files u hc, hl]
    simp [hd, sliceFrom, hn]
  · intro n files path info hr
    simp [walkFn, Eff.bind, hr]
  · simp [linkFS, demoFS, demoSub, demoWalk]

/-- C11 at the example: in the loop, the selected symbolic link `/a/dir/sub/l`
appends the entry `sub/l` to the entries accumulated so far. -/
theorem C11_top_level_bypasses_filter_witness :
    PassesCheck linkFS "/a/dir/sub".toList linkItem ∧
      linkFS.Lstat linkItem.Path = .ok ⟨ModeSymlink ||| 0o777⟩ ∧
      (sendItem linkFS "/a/dir/sub".toList 7 [] linkItem).val =
        some (.ok [⟨"sub/l".toList, ModeSymlink ||| 0o777, ⟨"/a/dir/sub/l".toList⟩⟩]) ∧
      (walkFn 7 [] ⟨"/a/dir/sub/l".toList, none, false, .ok ⟨ModeSymlink ||| 0o777⟩⟩).val =
        some ([], none) :=
  ⟨⟨"/a/dir/sub/l".toList, rfl, by decide⟩, rfl,
    C11_top_level_bypasses_filter.1 linkFS "/a/dir/sub".toList 7 [] linkItem
      ⟨ModeSymlink ||| 0o777⟩ ⟨"/a/dir/sub/l".toList, rfl, by decide⟩ rfl (by decide) (by decide),
    C11_top_level_bypasses_filter.2.1 7 [] "/a/dir/sub/l".toList ⟨ModeSymlink ||| 0o777⟩
      (by decide)⟩

end Transport
